import Mathlib

/-!
Shallow embedding of the object-detection evaluation core of
`bioscout_tech_challenge`: the `BoundingBox` value type with its coordinate
conversions and IoU computation (`models/bounding_box.py`), and the greedy
matching / metric aggregation functions (`imagery/metrics.py`).

Modelling conventions:
* Python floats are modelled as exact rationals (`ℚ`).
* Python float division raises `ZeroDivisionError` on a zero divisor, so a
  computation that may divide is `Option`-valued: `none` models a raised
  exception, `some q` a returned value.  The exception propagates through the
  matching loops exactly as in Python.
* Python's `int()` truncates toward zero; `truncInt` below models it.
* `find_true_positives` keeps its `matched_gt_boxes` set, whose elements are
  the values of the Python variable `best_gt_idx` — an `int` or `None` — so
  the set is a `Finset (Option ℕ)`; `some i` models the index `i` and `none`
  models Python's `None` (which the source can genuinely add to the set when
  `best_iou >= iou_threshold` holds with no candidate selected).
* The Python dict returned by `find_box_matches` is modelled as the list of
  key/value pairs in insertion order (keys are inserted strictly increasing,
  hence unique).
-/

/-- `BoundingBox` dataclass: top-left corner `(x, y)` plus `width`/`height`,
with an optional `name` that geometry never reads. -/
structure BoundingBox where
  x : ℚ
  y : ℚ
  width : ℚ
  height : ℚ
  name : Option String := none
deriving DecidableEq

/-- Python `int()` applied to a rational: truncation toward zero. -/
def truncInt (q : ℚ) : ℤ :=
  if q < 0 then ⌈q⌉ else ⌊q⌋

namespace BoundingBox

/-- `BoundingBox.from_absolute_coordinates`: normalize absolute pixel
coordinates by the image dimensions. -/
def from_absolute_coordinates (x_min y_min x_max y_max image_width image_height : ℚ)
    (name : Option String := none) : BoundingBox :=
  { x := x_min / image_width
    y := y_min / image_height
    width := (x_max - x_min) / image_width
    height := (y_max - y_min) / image_height
    name := name }

/-- `BoundingBox.from_centroid`: convert a centroid box to top-left form. -/
def from_centroid (x y width height : ℚ) (name : Option String := none) : BoundingBox :=
  { x := x - width / 2, y := y - height / 2, width := width, height := height, name := name }

/-- `BoundingBox.calculate_iou`.  Returns `some` of the IoU value; returns
`none` when the source would raise `ZeroDivisionError`, i.e. when the final
division `intersection_area / union_area` has a zero divisor. -/
def calculate_iou (self other : BoundingBox) : Option ℚ :=
  let x_left := max self.x other.x
  let y_top := max self.y other.y
  let x_right := min (self.x + self.width) (other.x + other.width)
  let y_bottom := min (self.y + self.height) (other.y + other.height)
  if x_right < x_left ∨ y_bottom < y_top then
    some 0
  else
    let intersection_area := (x_right - x_left) * (y_bottom - y_top)
    let box1_area := self.width * self.height
    let box2_area := other.width * other.height
    let union_area := box1_area + box2_area - intersection_area
    if union_area = 0 then none else some (intersection_area / union_area)

/-- `BoundingBox.to_absolute_coordinates`: scale back to absolute pixels,
truncating each coordinate with Python `int()`. -/
def to_absolute_coordinates (self : BoundingBox) (image_width image_height : ℚ) :
    ℤ × ℤ × ℤ × ℤ :=
  ( truncInt (self.x * image_width)
  , truncInt (self.y * image_height)
  , truncInt ((self.x + self.width) * image_width)
  , truncInt ((self.y + self.height) * image_height) )

/-- `BoundingBox.to_absolute_centroid`. -/
def to_absolute_centroid (self : BoundingBox) (image_width image_height : ℚ) : ℤ × ℤ :=
  ( truncInt ((self.x + self.width / 2) * image_width)
  , truncInt ((self.y + self.height / 2) * image_height) )

end BoundingBox

/-- `calculate_precision`: `true_positives / no_predicted_boxes` when the
denominator is truthy (nonzero), else `0`. -/
def calculate_precision (true_positives no_predicted_boxes : ℕ) : ℚ :=
  if no_predicted_boxes ≠ 0 then (true_positives : ℚ) / no_predicted_boxes else 0

/-- `calculate_recall`: `true_positives / no_ground_truth_boxes` when the
denominator is truthy (nonzero), else `0`. -/
def calculate_recall (true_positives no_ground_truth_boxes : ℕ) : ℚ :=
  if no_ground_truth_boxes ≠ 0 then (true_positives : ℚ) / no_ground_truth_boxes else 0

/-- `calculate_f1`: harmonic mean of precision and recall, `0` when their sum
is not positive. -/
def calculate_f1 (precision recall_value : ℚ) : ℚ :=
  if precision + recall_value > 0 then 2 * (precision * recall_value) / (precision + recall_value) else 0

/-- Inner loop of `find_true_positives`: `for idx, gt_box in
enumerate(ground_truth_boxes)` scanning for the strictly best IoU among
ground-truth boxes not yet in `matched_gt_boxes`.  `idx` is the index of the
head of `gts`; `best` is the running `(best_iou, best_gt_idx)` pair.  `none`
models an exception escaping from `calculate_iou`. -/
def bestScan (pred_box : BoundingBox) (gts : List BoundingBox) (idx : ℕ)
    (matched_gt_boxes : Finset (Option ℕ)) (best : ℚ × Option ℕ) :
    Option (ℚ × Option ℕ) :=
  match gts with
  | [] => some best
  | gt_box :: rest =>
      if some idx ∈ matched_gt_boxes then
        bestScan pred_box rest (idx + 1) matched_gt_boxes best
      else
        match pred_box.calculate_iou gt_box with
        | none => none
        | some iou =>
            if best.1 < iou then
              bestScan pred_box rest (idx + 1) matched_gt_boxes (iou, some idx)
            else
              bestScan pred_box rest (idx + 1) matched_gt_boxes best

/-- Outer loop of `find_true_positives` over the predicted boxes, carrying
the running `true_positives` count and `matched_gt_boxes` set. -/
def ftpLoop (ground_truth_boxes : List BoundingBox) (iou_threshold : ℚ)
    (preds : List BoundingBox) (true_positives : ℕ)
    (matched_gt_boxes : Finset (Option ℕ)) : Option (ℕ × Finset (Option ℕ)) :=
  match preds with
  | [] => some (true_positives, matched_gt_boxes)
  | pred_box :: rest =>
      match bestScan pred_box ground_truth_boxes 0 matched_gt_boxes (0, none) with
      | none => none
      | some (best_iou, best_gt_idx) =>
          if iou_threshold ≤ best_iou then
            ftpLoop ground_truth_boxes iou_threshold rest (true_positives + 1)
              (insert best_gt_idx matched_gt_boxes)
          else
            ftpLoop ground_truth_boxes iou_threshold rest true_positives matched_gt_boxes

/-- `find_true_positives`: greedy count of matched predictions together with
the set of consumed `best_gt_idx` values (`some i` an index, `none` Python's
`None`). -/
def find_true_positives (predicted_boxes ground_truth_boxes : List BoundingBox)
    (iou_threshold : ℚ := 1/2) : Option (ℕ × Finset (Option ℕ)) :=
  ftpLoop ground_truth_boxes iou_threshold predicted_boxes 0 ∅

/-- The metrics dictionary returned by `calculate_metrics_for_predictions`.
`false_positives`/`false_negatives` are Python `int` subtractions, so `ℤ`. -/
structure MetricsRecord where
  precision : ℚ
  recall_value : ℚ
  f1_score : ℚ
  true_positives : ℕ
  false_positives : ℤ
  false_negatives : ℤ
  labelled_boxes : ℕ
  predicted_boxes : ℕ
deriving DecidableEq

/-- `calculate_metrics_for_predictions`: aggregate precision/recall/F1 and raw
counts from `find_true_positives` (`none` when the latter raises). -/
def calculate_metrics_for_predictions (predicted_boxes ground_truth_boxes : List BoundingBox)
    (iou_threshold : ℚ := 1/2) : Option MetricsRecord :=
  match find_true_positives predicted_boxes ground_truth_boxes iou_threshold with
  | none => none
  | some (true_positives, _) =>
      let precision := calculate_precision true_positives predicted_boxes.length
      let recall_value := calculate_recall true_positives ground_truth_boxes.length
      let f1 := calculate_f1 precision recall_value
      some
        { precision := precision
          recall_value := recall_value
          f1_score := f1
          true_positives := true_positives
          false_positives := (predicted_boxes.length : ℤ) - true_positives
          false_negatives := (ground_truth_boxes.length : ℤ) - true_positives
          labelled_boxes := ground_truth_boxes.length
          predicted_boxes := predicted_boxes.length }

/-- Inner loop of `find_box_matches`: same scan as `bestScan` but over the
`used_gt_boxes : Finset ℕ` set (only genuine indices are ever inserted
there). -/
def matchScan (pred_box : BoundingBox) (gts : List BoundingBox) (idx : ℕ)
    (used_gt_boxes : Finset ℕ) (best : ℚ × Option ℕ) : Option (ℚ × Option ℕ) :=
  match gts with
  | [] => some best
  | gt_box :: rest =>
      if idx ∈ used_gt_boxes then
        matchScan pred_box rest (idx + 1) used_gt_boxes best
      else
        match pred_box.calculate_iou gt_box with
        | none => none
        | some iou =>
            if best.1 < iou then
              matchScan pred_box rest (idx + 1) used_gt_boxes (iou, some idx)
            else
              matchScan pred_box rest (idx + 1) used_gt_boxes best

/-- Outer loop of `find_box_matches`; `pred_idx` is the index of the head of
`preds`, `matches` the dict-in-insertion-order built so far. -/
def fbmLoop (ground_truth_boxes : List BoundingBox) (iou_threshold : ℚ)
    (preds : List BoundingBox) (pred_idx : ℕ) (found_matches : List (ℕ × ℕ))
    (used_gt_boxes : Finset ℕ) : Option (List (ℕ × ℕ)) :=
  match preds with
  | [] => some found_matches
  | pred_box :: rest =>
      match matchScan pred_box ground_truth_boxes 0 used_gt_boxes (iou_threshold, none) with
      | none => none
      | some (_, none) =>
          fbmLoop ground_truth_boxes iou_threshold rest (pred_idx + 1) found_matches used_gt_boxes
      | some (_, some best_gt_idx) =>
          fbmLoop ground_truth_boxes iou_threshold rest (pred_idx + 1)
            (found_matches ++ [(pred_idx, best_gt_idx)]) (insert best_gt_idx used_gt_boxes)

/-- `find_box_matches`: greedy predicted-index → ground-truth-index map, with
`best_iou` initialized to the threshold itself and strict-`>` acceptance. -/
def find_box_matches (predicted_boxes ground_truth_boxes : List BoundingBox)
    (iou_threshold : ℚ := 1/2) : Option (List (ℕ × ℕ)) :=
  fbmLoop ground_truth_boxes iou_threshold predicted_boxes 0 [] ∅

/-! ### Characterization of `calculate_iou` -/

/-- The intersection rectangle's left edge. -/
def xLeft (a b : BoundingBox) : ℚ := max a.x b.x

/-- The intersection rectangle's top edge. -/
def yTop (a b : BoundingBox) : ℚ := max a.y b.y

/-- The intersection rectangle's right edge. -/
def xRight (a b : BoundingBox) : ℚ := min (a.x + a.width) (b.x + b.width)

/-- The intersection rectangle's bottom edge. -/
def yBottom (a b : BoundingBox) : ℚ := min (a.y + a.height) (b.y + b.height)

/-- Intersection area as computed by the source once the no-overlap test has
been passed. -/
def interArea (a b : BoundingBox) : ℚ :=
  (xRight a b - xLeft a b) * (yBottom a b - yTop a b)

/-- The source's `union_area` expression. -/
def unionArea (a b : BoundingBox) : ℚ :=
  a.width * a.height + b.width * b.height - interArea a b

theorem calculate_iou_eq (a b : BoundingBox) :
    a.calculate_iou b =
      if xRight a b < xLeft a b ∨ yBottom a b < yTop a b then some 0
      else if unionArea a b = 0 then none
      else some (interArea a b / unionArea a b) := rfl

/-! ### Geometry claims -/

/-- C1: the spec's explicit edge-case policy says that for two coincident
zero-area boxes `calculate_iou` returns `0.0` without dividing by zero.  The
source has no such guard: on two coincident zero-area boxes the no-overlap
test passes, `union_area` is `0`, and the division `0 / 0` raises
`ZeroDivisionError` (modelled as `none`). -/
theorem calculate_iou_zero_area_coincident_raises :
    BoundingBox.calculate_iou ⟨0, 0, 0, 0, none⟩ ⟨0, 0, 0, 0, none⟩ = none := by
  norm_num [calculate_iou_eq, xLeft, xRight, yTop, yBottom, unionArea, interArea]

set_option maxHeartbeats 1000000 in
/-- C2: for `predicted = [(0,0,2,2)]`, `ground_truth = [(0,0,2,1)]` the pairwise
IoU is exactly `1/2`; with threshold `1/2`, `find_true_positives` accepts the
pair (its final test is `best_iou >= threshold`) and returns `(1, {0})`, while
`find_box_matches` starts its `best_iou` at the threshold and accepts only on
strict `>`, so it returns the empty mapping. -/
theorem threshold_inclusivity :
    find_true_positives [⟨0, 0, 2, 2, none⟩] [⟨0, 0, 2, 1, none⟩] (1/2) =
        some (1, {some 0}) ∧
      find_box_matches [⟨0, 0, 2, 2, none⟩] [⟨0, 0, 2, 1, none⟩] (1/2) = some [] := by
  constructor
  · norm_num [find_true_positives, ftpLoop, bestScan, calculate_iou_eq,
      xLeft, xRight, yTop, yBottom, interArea, unionArea]
  · norm_num [find_box_matches, fbmLoop, matchScan, calculate_iou_eq,
      xLeft, xRight, yTop, yBottom, interArea, unionArea]

/-- C8: a box with strictly positive width and height has IoU exactly `1`
with itself. -/
theorem calculate_iou_self (a : BoundingBox) (hw : 0 < a.width) (hh : 0 < a.height) :
    a.calculate_iou a = some 1 := by
  have hx : xRight a a = a.x + a.width := by simp [xRight]
  have hy : yBottom a a = a.y + a.height := by simp [yBottom]
  have hxl : xLeft a a = a.x := by simp [xLeft]
  have hyt : yTop a a = a.y := by simp [yTop]
  have hI : interArea a a = a.width * a.height := by
    rw [interArea, hx, hy, hxl, hyt]; ring
  have hU : unionArea a a = a.width * a.height := by
    rw [unionArea, hI]; ring
  have hne : a.width * a.height ≠ 0 := by positivity
  rw [calculate_iou_eq, if_neg, hU, if_neg hne, hI, div_self hne]
  rw [hx, hy, hxl, hyt]
  push_neg
  constructor <;> linarith

/-- Witness for C8 at the unit box. -/
theorem calculate_iou_self_witness :
    BoundingBox.calculate_iou ⟨0, 0, 1, 1, none⟩ ⟨0, 0, 1, 1, none⟩ = some 1 :=
  calculate_iou_self ⟨0, 0, 1, 1, none⟩ (by norm_num) (by norm_num)

/-- `truncInt` is the identity on integers. -/
theorem truncInt_intCast (n : ℤ) : truncInt (n : ℚ) = n := by
  unfold truncInt
  split <;> simp

/-- C9: converting an integer pixel box into relative coordinates and back
with the same (positive) image dimensions recovers every coordinate within 1
pixel; in exact rational arithmetic the recovery is in fact exact, and the
`int()` truncation is toward zero, not rounding. -/
theorem from_to_absolute_round_trip (x_min y_min x_max y_max W H : ℤ)
    (hW : 0 < W) (hH : 0 < H) :
    |((BoundingBox.from_absolute_coordinates x_min y_min x_max y_max W H
        none).to_absolute_coordinates W H).1 - x_min| ≤ 1 ∧
    |((BoundingBox.from_absolute_coordinates x_min y_min x_max y_max W H
        none).to_absolute_coordinates W H).2.1 - y_min| ≤ 1 ∧
    |((BoundingBox.from_absolute_coordinates x_min y_min x_max y_max W H
        none).to_absolute_coordinates W H).2.2.1 - x_max| ≤ 1 ∧
    |((BoundingBox.from_absolute_coordinates x_min y_min x_max y_max W H
        none).to_absolute_coordinates W H).2.2.2 - y_max| ≤ 1 := by
  have hW' : (W : ℚ) ≠ 0 := Int.cast_ne_zero.mpr (by omega)
  have hH' : (H : ℚ) ≠ 0 := Int.cast_ne_zero.mpr (by omega)
  unfold BoundingBox.from_absolute_coordinates BoundingBox.to_absolute_coordinates
  simp only [div_mul_cancel₀ _ hW', div_mul_cancel₀ _ hH', div_add_div_same,
    ← add_div]
  simp [truncInt_intCast]

/-- Witness for C9 at a concrete pixel box in a 10×8 image. -/
theorem from_to_absolute_round_trip_witness :
    |((BoundingBox.from_absolute_coordinates 1 2 5 7 10 8
        none).to_absolute_coordinates 10 8).1 - 1| ≤ 1 ∧
    |((BoundingBox.from_absolute_coordinates 1 2 5 7 10 8
        none).to_absolute_coordinates 10 8).2.1 - 2| ≤ 1 ∧
    |((BoundingBox.from_absolute_coordinates 1 2 5 7 10 8
        none).to_absolute_coordinates 10 8).2.2.1 - 5| ≤ 1 ∧
    |((BoundingBox.from_absolute_coordinates 1 2 5 7 10 8
        none).to_absolute_coordinates 10 8).2.2.2 - 7| ≤ 1 := by
  have h := from_to_absolute_round_trip 1 2 5 7 10 8 (by norm_num) (by norm_num)
  norm_num at h ⊢
  exact h

/-- C7 counterexample: on the pair of coincident zero-area (degenerate
segment) boxes `(0,0,1,0)` the source divides by zero (modelled `none`), so
`calculate_iou` does not return a value in `[0,1]` for *every* pair of
boxes. -/
theorem calculate_iou_not_total :
    BoundingBox.calculate_iou ⟨0, 0, 1, 0, none⟩ ⟨0, 0, 1, 0, none⟩ = none := by
  norm_num [calculate_iou_eq, xLeft, xRight, yTop, yBottom, unionArea, interArea]

/-- C7 (amended): whenever `calculate_iou` returns a value — that is, whenever
the division is not by zero — that value lies in `[0,1]`, with no sign
precondition on widths or heights; and whenever the computed intersection
extent is negative the result is exactly `0`. -/
theorem calculate_iou_range :
    (∀ a b : BoundingBox, ∀ q : ℚ, a.calculate_iou b = some q → 0 ≤ q ∧ q ≤ 1) ∧
    (∀ a b : BoundingBox, xRight a b < xLeft a b ∨ yBottom a b < yTop a b →
      a.calculate_iou b = some 0) := by
  constructor
  · intro a b q h
    rw [calculate_iou_eq] at h
    split_ifs at h with hnov hz
    · cases h
      norm_num
    · obtain rfl : interArea a b / unionArea a b = q := by
        simpa using h
      push_neg at hnov
      obtain ⟨hx, hy⟩ := hnov
      have hwx : xRight a b - xLeft a b ≤ a.width := by
        have h1 : xRight a b ≤ a.x + a.width := min_le_left _ _
        have h2 : a.x ≤ xLeft a b := le_max_left _ _
        simp only [xRight, xLeft] at h1 h2 ⊢
        linarith
      have hwy : yBottom a b - yTop a b ≤ a.height := by
        have h1 : yBottom a b ≤ a.y + a.height := min_le_left _ _
        have h2 : a.y ≤ yTop a b := le_max_left _ _
        simp only [yBottom, yTop] at h1 h2 ⊢
        linarith
      have hwx' : xRight a b - xLeft a b ≤ b.width := by
        have h1 : xRight a b ≤ b.x + b.width := min_le_right _ _
        have h2 : b.x ≤ xLeft a b := le_max_right _ _
        simp only [xRight, xLeft] at h1 h2 ⊢
        linarith
      have hwy' : yBottom a b - yTop a b ≤ b.height := by
        have h1 : yBottom a b ≤ b.y + b.height := min_le_right _ _
        have h2 : b.y ≤ yTop a b := le_max_right _ _
        simp only [yBottom, yTop] at h1 h2 ⊢
        linarith
      have hI0 : 0 ≤ interArea a b := by
        have := mul_nonneg (sub_nonneg.mpr hx) (sub_nonneg.mpr hy)
        simpa [interArea] using this
      have hIa : interArea a b ≤ a.width * a.height := by
        have := mul_le_mul hwx hwy (by linarith) (by linarith)
        simpa [interArea] using this
      have hIb : interArea a b ≤ b.width * b.height := by
        have := mul_le_mul hwx' hwy' (by linarith) (by linarith)
        simpa [interArea] using this
      have hU0 : 0 ≤ unionArea a b := by
        simp only [unionArea]
        linarith
      have hUpos : 0 < unionArea a b := lt_of_le_of_ne hU0 (Ne.symm hz)
      have hIU : interArea a b ≤ unionArea a b := by
        simp only [unionArea]
        linarith
      exact ⟨div_nonneg hI0 hU0, (div_le_one hUpos).mpr hIU⟩
  · intro a b hlt
    rw [calculate_iou_eq, if_pos hlt]

/-- Witness for C7 (amended): the value `1/2` returned on an overlapping pair
lies in `[0,1]`, and the spec's disjoint pair `(0,0,1,1)` vs `(5,5,1,1)`
yields exactly `0`. -/
theorem calculate_iou_range_witness :
    (0 ≤ (1/2 : ℚ) ∧ (1/2 : ℚ) ≤ 1) ∧
      BoundingBox.calculate_iou ⟨0, 0, 1, 1, none⟩ ⟨5, 5, 1, 1, none⟩ = some 0 :=
  ⟨calculate_iou_range.1 ⟨0, 0, 2, 2, none⟩ ⟨0, 0, 2, 1, none⟩ (1/2)
      (by norm_num [calculate_iou_eq, xLeft, xRight, yTop, yBottom, unionArea, interArea]),
    calculate_iou_range.2 ⟨0, 0, 1, 1, none⟩ ⟨5, 5, 1, 1, none⟩
      (by norm_num [xLeft, xRight, yTop, yBottom])⟩

/-! ### Invariants of the greedy scans -/

/-- A successful `bestScan` either leaves the running best untouched or
improves it strictly, and in the latter case the selected index is an
unmatched genuine index of the scanned ground-truth list. -/
theorem bestScan_some_cases (p : BoundingBox) :
    ∀ (gts : List BoundingBox) (idx : ℕ) (m : Finset (Option ℕ))
      (best res : ℚ × Option ℕ),
      bestScan p gts idx m best = some res →
      res = best ∨
        (best.1 < res.1 ∧ ∃ i, res.2 = some i ∧ some i ∉ m ∧ idx ≤ i ∧ i < idx + gts.length) := by
  intro gts
  induction gts with
  | nil =>
      intro idx m best res h
      simp only [bestScan, Option.some.injEq] at h
      exact Or.inl h.symm
  | cons gt_box rest ih =>
      intro idx m best res h
      simp only [bestScan] at h
      split at h
      · rcases ih (idx + 1) m best res h with h1 | ⟨hlt, i, hi, him, hge, hub⟩
        · exact Or.inl h1
        · refine Or.inr ⟨hlt, i, hi, him, by omega, ?_⟩
          simp only [List.length_cons]
          omega
      · split at h
        · exact absurd h (by simp)
        · rename_i iou hiou
          split at h
          · rename_i hbest
            rcases ih (idx + 1) m (iou, some idx) res h with h1 | ⟨hlt, i, hi, him, hge, hub⟩
            · refine Or.inr ⟨by rw [h1]; exact hbest, idx, by rw [h1], by assumption, le_refl _, ?_⟩
              simp only [List.length_cons]
              omega
            · refine Or.inr ⟨lt_trans hbest hlt, i, hi, him, by omega, ?_⟩
              simp only [List.length_cons]
              omega
          · rcases ih (idx + 1) m best res h with h1 | ⟨hlt, i, hi, him, hge, hub⟩
            · exact Or.inl h1
            · refine Or.inr ⟨hlt, i, hi, him, by omega, ?_⟩
              simp only [List.length_cons]
              omega

/-- Analogue of `bestScan_some_cases` for the `find_box_matches` scan: a
selected index is always a not-yet-used genuine index of the scanned list. -/
theorem matchScan_some_cases (p : BoundingBox) :
    ∀ (gts : List BoundingBox) (idx : ℕ) (u : Finset ℕ) (best res : ℚ × Option ℕ),
      matchScan p gts idx u best = some res →
      res = best ∨
        (best.1 < res.1 ∧ ∃ i, res.2 = some i ∧ i ∉ u ∧ idx ≤ i ∧ i < idx + gts.length) := by
  intro gts
  induction gts with
  | nil =>
      intro idx u best res h
      simp only [matchScan, Option.some.injEq] at h
      exact Or.inl h.symm
  | cons gt_box rest ih =>
      intro idx u best res h
      simp only [matchScan] at h
      split at h
      · rcases ih (idx + 1) u best res h with h1 | ⟨hlt, i, hi, him, hge, hub⟩
        · exact Or.inl h1
        · refine Or.inr ⟨hlt, i, hi, him, by omega, ?_⟩
          simp only [List.length_cons]
          omega
      · split at h
        · exact absurd h (by simp)
        · rename_i iou hiou
          split at h
          · rename_i hbest
            rcases ih (idx + 1) u (iou, some idx) res h with h1 | ⟨hlt, i, hi, him, hge, hub⟩
            · refine Or.inr ⟨by rw [h1]; exact hbest, idx, by rw [h1], by assumption, le_refl _, ?_⟩
              simp only [List.length_cons]
              omega
            · refine Or.inr ⟨lt_trans hbest hlt, i, hi, him, by omega, ?_⟩
              simp only [List.length_cons]
              omega
          · rcases ih (idx + 1) u best res h with h1 | ⟨hlt, i, hi, him, hge, hub⟩
            · exact Or.inl h1
            · refine Or.inr ⟨hlt, i, hi, him, by omega, ?_⟩
              simp only [List.length_cons]
              omega

/-- Invariant of the `find_true_positives` outer loop under a strictly
positive threshold: the matched set holds only genuine in-range indices, its
cardinality tracks the true-positive count, and the count grows by at most
one per prediction. -/
theorem ftpLoop_invariant (gts : List BoundingBox) (thr : ℚ) (hthr : 0 < thr) :
    ∀ (preds : List BoundingBox) (tp : ℕ) (m : Finset (Option ℕ))
      (n : ℕ) (S : Finset (Option ℕ)),
      ftpLoop gts thr preds tp m = some (n, S) →
      (∀ x ∈ m, ∃ i, x = some i ∧ i < gts.length) → m.card = tp →
      (∀ x ∈ S, ∃ i, x = some i ∧ i < gts.length) ∧ S.card = n ∧
        tp ≤ n ∧ n ≤ tp + preds.length := by
  intro preds
  induction preds with
  | nil =>
      intro tp m n S h hvalid hcard
      simp only [ftpLoop, Option.some.injEq, Prod.mk.injEq] at h
      obtain ⟨rfl, rfl⟩ := h
      exact ⟨hvalid, hcard, le_refl _, by omega⟩
  | cons pred_box rest ih =>
      intro tp m n S h hvalid hcard
      simp only [ftpLoop] at h
      rcases hbs : bestScan pred_box gts 0 m (0, none) with _ | ⟨biou, bidx⟩
      · rw [hbs] at h
        exact absurd h (by simp)
      · rw [hbs] at h
        simp only at h
        by_cases hacc : thr ≤ biou
        · rw [if_pos hacc] at h
          have hpos : (0 : ℚ) < biou := lt_of_lt_of_le hthr hacc
          rcases bestScan_some_cases pred_box gts 0 m (0, none) (biou, bidx) hbs with
            h1 | ⟨_, i, hi, him, _, hub⟩
          · exact absurd hpos (by rw [Prod.mk.injEq] at h1; rw [h1.1]; exact lt_irrefl 0)
          · simp only at hi
            subst hi
            have hvalid' : ∀ x ∈ insert (some i) m, ∃ j, x = some j ∧ j < gts.length := by
              intro x hx
              rcases Finset.mem_insert.mp hx with rfl | hx'
              · exact ⟨i, rfl, by omega⟩
              · exact hvalid x hx'
            have hcard' : (insert (some i) m).card = tp + 1 := by
              rw [Finset.card_insert_of_not_mem him, hcard]
            obtain ⟨hv, hc, hlow, hup⟩ := ih (tp + 1) (insert (some i) m) n S h hvalid' hcard'
            refine ⟨hv, hc, by omega, ?_⟩
            simp only [List.length_cons]
            omega
        · rw [if_neg hacc] at h
          obtain ⟨hv, hc, hlow, hup⟩ := ih tp m n S h hvalid hcard
          refine ⟨hv, hc, hlow, ?_⟩
          simp only [List.length_cons]
          omega

/-- C10: under a strictly positive threshold, a successful
`find_true_positives` returns a count equal to the cardinality of the matched
set, and every element of that set is a genuine index into the ground-truth
collection. -/
theorem find_true_positives_wellformed (preds gts : List BoundingBox) (thr : ℚ)
    (hthr : 0 < thr) (n : ℕ) (S : Finset (Option ℕ))
    (h : find_true_positives preds gts thr = some (n, S)) :
    n = S.card ∧ ∀ x ∈ S, ∃ i, x = some i ∧ i < gts.length := by
  obtain ⟨hv, hc, -, -⟩ :=
    ftpLoop_invariant gts thr hthr preds 0 ∅ n S h (by simp) (by simp)
  exact ⟨hc.symm, hv⟩

/-- Witness for C10 at the exact-threshold pair of C2. -/
theorem find_true_positives_wellformed_witness :
    1 = ({some 0} : Finset (Option ℕ)).card ∧
      ∀ x ∈ ({some 0} : Finset (Option ℕ)), ∃ i, x = some i ∧
        i < [(⟨0, 0, 2, 1, none⟩ : BoundingBox)].length :=
  find_true_positives_wellformed [⟨0, 0, 2, 2, none⟩] [⟨0, 0, 2, 1, none⟩] (1/2)
    (by norm_num) 1 {some 0}
    (by norm_num [find_true_positives, ftpLoop, bestScan, calculate_iou_eq,
      xLeft, xRight, yTop, yBottom, interArea, unionArea])

/-- The matched-index count of `find_true_positives` is bounded by the number
of ground-truth boxes when the threshold is positive. -/
theorem find_true_positives_le_gts (preds gts : List BoundingBox) (thr : ℚ)
    (hthr : 0 < thr) (n : ℕ) (S : Finset (Option ℕ))
    (h : find_true_positives preds gts thr = some (n, S)) : n ≤ gts.length := by
  obtain ⟨hn, hv⟩ := find_true_positives_wellformed preds gts thr hthr n S h
  have hsub : S ⊆ (Finset.range gts.length).image some := by
    intro x hx
    obtain ⟨i, rfl, hlt⟩ := hv x hx
    exact Finset.mem_image.mpr ⟨i, Finset.mem_range.mpr hlt, rfl⟩
  calc n = S.card := hn
    _ ≤ ((Finset.range gts.length).image some).card := Finset.card_le_card hsub
    _ ≤ (Finset.range gts.length).card := Finset.card_image_le
    _ = gts.length := Finset.card_range _

/-- The true-positive count of `find_true_positives` is bounded by the number
of predictions (each prediction contributes at most one acceptance). -/
theorem ftpLoop_le_preds (gts : List BoundingBox) (thr : ℚ) :
    ∀ (preds : List BoundingBox) (tp : ℕ) (m : Finset (Option ℕ))
      (n : ℕ) (S : Finset (Option ℕ)),
      ftpLoop gts thr preds tp m = some (n, S) → n ≤ tp + preds.length := by
  intro preds
  induction preds with
  | nil =>
      intro tp m n S h
      simp only [ftpLoop, Option.some.injEq, Prod.mk.injEq] at h
      omega
  | cons pred_box rest ih =>
      intro tp m n S h
      simp only [ftpLoop] at h
      rcases hbs : bestScan pred_box gts 0 m (0, none) with _ | ⟨biou, bidx⟩
      · rw [hbs] at h
        exact absurd h (by simp)
      · rw [hbs] at h
        simp only at h
        by_cases hacc : thr ≤ biou
        · rw [if_pos hacc] at h
          have := ih (tp + 1) (insert bidx m) n S h
          simp only [List.length_cons]
          omega
        · rw [if_neg hacc] at h
          have := ih tp m n S h
          simp only [List.length_cons]
          omega

/-- C3 counterexample: with threshold `0` (the claim allows every threshold
value) and two predictions against an empty ground-truth collection, the
acceptance test `best_iou >= iou_threshold` succeeds with no candidate, so
`true_positives = 2` and `false_negatives = 0 - 2 = -2 < 0`. -/
theorem metrics_negative_false_negatives :
    (calculate_metrics_for_predictions [⟨0, 0, 1, 1, none⟩, ⟨0, 0, 1, 1, none⟩] [] 0).map
        MetricsRecord.false_negatives = some (-2) ∧ ¬ (0 : ℤ) ≤ -2 := by
  constructor
  · norm_num [calculate_metrics_for_predictions, find_true_positives, ftpLoop, bestScan,
      calculate_precision, calculate_recall, calculate_f1]
  · norm_num

/-- C3 (amended): for every *strictly positive* threshold, a returned metrics
record satisfies `false_positives = predicted_count - true_positives ≥ 0` and
`false_negatives = ground_truth_count - true_positives ≥ 0`. -/
theorem metrics_counts_consistent (preds gts : List BoundingBox) (thr : ℚ)
    (hthr : 0 < thr) (r : MetricsRecord)
    (h : calculate_metrics_for_predictions preds gts thr = some r) :
    r.false_positives = (preds.length : ℤ) - r.true_positives ∧ 0 ≤ r.false_positives ∧
      r.false_negatives = (gts.length : ℤ) - r.true_positives ∧ 0 ≤ r.false_negatives := by
  unfold calculate_metrics_for_predictions at h
  rcases hftp : find_true_positives preds gts thr with _ | ⟨tp, S⟩
  · rw [hftp] at h
    exact absurd h (by simp)
  · rw [hftp] at h
    simp only [Option.some.injEq] at h
    have h1 : tp ≤ preds.length := by
      have := ftpLoop_le_preds gts thr preds 0 ∅ tp S hftp
      omega
    have h2 : tp ≤ gts.length := find_true_positives_le_gts preds gts thr hthr tp S hftp
    subst h
    refine ⟨rfl, by simp; exact_mod_cast h1, rfl, by simp; exact_mod_cast h2⟩

/-- The metrics record produced by the spec's end-to-end scenario
(`predicted = [(0,0,1,1),(5,5,1,1)]`, `ground truth = [(0,0,1,1),(10,10,1,1)]`,
threshold `1/2`). -/
def endToEndRecord : MetricsRecord :=
  { precision := 1/2, recall_value := 1/2, f1_score := 1/2, true_positives := 1,
    false_positives := 1, false_negatives := 1, labelled_boxes := 2, predicted_boxes := 2 }

/-- Witness for C3 (amended) on the spec's end-to-end scenario. -/
theorem metrics_counts_consistent_witness :
    endToEndRecord.false_positives = (2 : ℤ) - 1 ∧ (0 : ℤ) ≤ endToEndRecord.false_positives ∧
      endToEndRecord.false_negatives = (2 : ℤ) - 1 ∧
      (0 : ℤ) ≤ endToEndRecord.false_negatives := by
  have h := metrics_counts_consistent [⟨0, 0, 1, 1, none⟩, ⟨5, 5, 1, 1, none⟩]
    [⟨0, 0, 1, 1, none⟩, ⟨10, 10, 1, 1, none⟩] (1/2) (by norm_num) endToEndRecord
    (by norm_num [calculate_metrics_for_predictions, find_true_positives, ftpLoop, bestScan,
      calculate_iou_eq, xLeft, xRight, yTop, yBottom, interArea, unionArea,
      calculate_precision, calculate_recall, calculate_f1, endToEndRecord])
  simpa [endToEndRecord] using h

/-- With no ground-truth boxes and a nonpositive-free (strictly positive)
threshold, the `find_true_positives` loop accepts nothing. -/
theorem ftpLoop_nil_gts_of_pos (thr : ℚ) (hthr : 0 < thr) :
    ∀ (preds : List BoundingBox) (tp : ℕ) (m : Finset (Option ℕ)),
      ftpLoop [] thr preds tp m = some (tp, m) := by
  intro preds
  induction preds with
  | nil => intro tp m; rfl
  | cons pred_box rest ih =>
      intro tp m
      simp only [ftpLoop, bestScan]
      rw [if_neg (by linarith)]
      exact ih tp m

/-- With no ground-truth boxes the `find_true_positives` loop never raises,
whatever the threshold. -/
theorem ftpLoop_nil_gts_isSome (thr : ℚ) :
    ∀ (preds : List BoundingBox) (tp : ℕ) (m : Finset (Option ℕ)),
      (ftpLoop [] thr preds tp m).isSome = true := by
  intro preds
  induction preds with
  | nil => intro tp m; rfl
  | cons pred_box rest ih =>
      intro tp m
      simp only [ftpLoop, bestScan]
      by_cases hacc : thr ≤ 0
      · rw [if_pos hacc]
        exact ih (tp + 1) (insert none m)
      · rw [if_neg hacc]
        exact ih tp m

/-- With no ground-truth boxes the `find_box_matches` loop returns its
accumulator unchanged. -/
theorem fbmLoop_nil_gts (thr : ℚ) :
    ∀ (preds : List BoundingBox) (pidx : ℕ) (acc : List (ℕ × ℕ)) (u : Finset ℕ),
      fbmLoop [] thr preds pidx acc u = some acc := by
  intro preds
  induction preds with
  | nil => intro pidx acc u; rfl
  | cons pred_box rest ih =>
      intro pidx acc u
      simp only [fbmLoop, matchScan]
      exact ih (pidx + 1) acc u

/-- C4 counterexample: with threshold `0` and an empty ground-truth
collection, `find_true_positives` over one prediction returns
`(1, {None})`, not `(0, ∅)` — the acceptance test `best_iou >= iou_threshold`
succeeds with no candidate selected. -/
theorem ftp_empty_gts_zero_threshold :
    find_true_positives [⟨0, 0, 1, 1, none⟩] [] 0 = some (1, {none}) ∧
      some (1, ({none} : Finset (Option ℕ))) ≠ some (0, (∅ : Finset (Option ℕ))) := by
  constructor
  · norm_num [find_true_positives, ftpLoop, bestScan]
  · simp

/-- C4 (amended): for every threshold, neither matching variant raises on an
empty input collection, an empty predicted collection yields `(0, ∅)` and the
empty map, and an empty ground-truth collection yields the empty map from
`find_box_matches` and — provided the threshold is strictly positive —
`(0, ∅)` from `find_true_positives`. -/
theorem empty_collections_behavior :
    (∀ (gts : List BoundingBox) (thr : ℚ), find_true_positives [] gts thr = some (0, ∅)) ∧
      (∀ (gts : List BoundingBox) (thr : ℚ), find_box_matches [] gts thr = some []) ∧
      (∀ (preds : List BoundingBox) (thr : ℚ), find_box_matches preds [] thr = some []) ∧
      (∀ (preds : List BoundingBox) (thr : ℚ), 0 < thr →
        find_true_positives preds [] thr = some (0, ∅)) ∧
      (∀ (preds : List BoundingBox) (thr : ℚ),
        (find_true_positives preds [] thr).isSome = true) := by
  refine ⟨fun gts thr => rfl, fun gts thr => rfl, ?_, ?_, ?_⟩
  · intro preds thr
    exact fbmLoop_nil_gts thr preds 0 [] ∅
  · intro preds thr hthr
    exact ftpLoop_nil_gts_of_pos thr hthr preds 0 ∅
  · intro preds thr
    exact ftpLoop_nil_gts_isSome thr preds 0 ∅

/-- Witness for C4 (amended) at concrete empty-collection inputs. -/
theorem empty_collections_behavior_witness :
    find_true_positives [] [⟨0, 0, 1, 1, none⟩] (1/2) = some (0, ∅) ∧
      find_box_matches [⟨0, 0, 1, 1, none⟩] [] (1/2) = some [] ∧
      find_true_positives [⟨0, 0, 1, 1, none⟩] [] (1/2) = some (0, ∅) :=
  ⟨empty_collections_behavior.1 [⟨0, 0, 1, 1, none⟩] (1/2),
    empty_collections_behavior.2.2.1 [⟨0, 0, 1, 1, none⟩] (1/2),
    empty_collections_behavior.2.2.2.1 [⟨0, 0, 1, 1, none⟩] (1/2) (by norm_num)⟩

/-- Invariant of the `find_box_matches` outer loop: if the accumulated
match-list values are distinct and all already marked used, the final list's
values are distinct. -/
theorem fbmLoop_values_nodup (gts : List BoundingBox) (thr : ℚ) :
    ∀ (preds : List BoundingBox) (pidx : ℕ) (acc : List (ℕ × ℕ)) (u : Finset ℕ)
      (ms : List (ℕ × ℕ)),
      fbmLoop gts thr preds pidx acc u = some ms →
      (acc.map Prod.snd).Nodup → (∀ g ∈ acc.map Prod.snd, g ∈ u) →
      (ms.map Prod.snd).Nodup := by
  intro preds
  induction preds with
  | nil =>
      intro pidx acc u ms h hnd hsub
      simp only [fbmLoop, Option.some.injEq] at h
      subst h
      exact hnd
  | cons pred_box rest ih =>
      intro pidx acc u ms h hnd hsub
      simp only [fbmLoop] at h
      rcases hms : matchScan pred_box gts 0 u (thr, none) with _ | ⟨biou, bidx⟩
      · rw [hms] at h
        exact absurd h (by simp)
      · rw [hms] at h
        rcases bidx with _ | g
        · simp only at h
          exact ih (pidx + 1) acc u ms h hnd hsub
        · simp only at h
          have hg : g ∉ u := by
            rcases matchScan_some_cases pred_box gts 0 u (thr, none) (biou, some g) hms with
              h1 | ⟨-, i, hi, hiu, -, -⟩
            · exact absurd h1 (by simp)
            · simp only [Option.some.injEq] at hi
              subst hi
              exact hiu
          refine ih (pidx + 1) (acc ++ [(pidx, g)]) (insert g u) ms h ?_ ?_
          · rw [List.map_append, List.nodup_append]
            refine ⟨hnd, by simp, ?_⟩
            intro a ha hb
            simp only [List.map_cons, List.map_nil, List.mem_singleton] at hb
            subst hb
            exact hg (hsub a ha)
          · intro g' hg'
            rw [List.map_append, List.mem_append] at hg'
            rcases hg' with hg' | hg'
            · exact Finset.mem_insert.mpr (Or.inr (hsub g' hg'))
            · simp only [List.map_cons, List.map_nil, List.mem_singleton] at hg'
              subst hg'
              exact Finset.mem_insert_self _ _

/-- C5: ground-truth exclusivity.  (1) `find_box_matches` never maps two
predictions to the same ground-truth index: the values of the returned map
are pairwise distinct.  (2) In `find_true_positives`, when two predictions
both reach a single ground-truth box at or above a positive threshold, only
the first in input order claims it: the result is `(1, {0})`. -/
theorem ground_truth_exclusivity :
    (∀ (preds gts : List BoundingBox) (thr : ℚ) (ms : List (ℕ × ℕ)),
        find_box_matches preds gts thr = some ms → (ms.map Prod.snd).Nodup) ∧
      (∀ (p1 p2 g : BoundingBox) (thr i1 i2 : ℚ), 0 < thr →
        p1.calculate_iou g = some i1 → thr ≤ i1 →
        p2.calculate_iou g = some i2 → thr ≤ i2 →
        find_true_positives [p1, p2] [g] thr = some (1, {some 0})) := by
  constructor
  · intro preds gts thr ms h
    exact fbmLoop_values_nodup gts thr preds 0 [] ∅ ms h (by simp) (by simp)
  · intro p1 p2 g thr i1 i2 hthr h1 hle1 h2 hle2
    have hpos1 : (0 : ℚ) < i1 := lt_of_lt_of_le hthr hle1
    have hnle : ¬ thr ≤ (0 : ℚ) := by linarith
    simp only [find_true_positives, ftpLoop, bestScan, Finset.not_mem_empty, if_false, h1,
      if_pos hpos1, Finset.mem_insert_self, if_true, if_pos hle1, if_neg hnle]
    rfl

/-- Witness for C5: a concrete one-entry map has distinct values, and the
two-predictions-one-ground-truth scenario at exact threshold yields
`(1, {0})`. -/
theorem ground_truth_exclusivity_witness :
    (([((0 : ℕ), (0 : ℕ))].map Prod.snd).Nodup) ∧
      find_true_positives [⟨0, 0, 2, 2, none⟩, ⟨0, 0, 2, 2, none⟩] [⟨0, 0, 2, 1, none⟩]
        (1/2) = some (1, {some 0}) :=
  ⟨ground_truth_exclusivity.1 [⟨0, 0, 2, 2, none⟩] [⟨0, 0, 2, 2, none⟩] (1/2) [(0, 0)]
      (by norm_num [find_box_matches, fbmLoop, matchScan, calculate_iou_eq,
        xLeft, xRight, yTop, yBottom, interArea, unionArea]),
    ground_truth_exclusivity.2 ⟨0, 0, 2, 2, none⟩ ⟨0, 0, 2, 2, none⟩ ⟨0, 0, 2, 1, none⟩
      (1/2) (1/2) (1/2) (by norm_num)
      (by norm_num [calculate_iou_eq, xLeft, xRight, yTop, yBottom, interArea, unionArea])
      (by norm_num)
      (by norm_num [calculate_iou_eq, xLeft, xRight, yTop, yBottom, interArea, unionArea])
      (by norm_num)⟩

/-- C6: `calculate_metrics_for_predictions` takes `true_positives` from
`find_true_positives` (Variant A) and fills every field by the spec's
formulas: guarded ratios for precision and recall, the harmonic-mean formula
for F1, and the raw counts. -/
theorem calculate_metrics_formulas (preds gts : List BoundingBox) (thr : ℚ)
    (tp : ℕ) (S : Finset (Option ℕ)) (r : MetricsRecord)
    (h : find_true_positives preds gts thr = some (tp, S))
    (hr : calculate_metrics_for_predictions preds gts thr = some r) :
    r.true_positives = tp ∧
      r.precision = (if 0 < preds.length then (tp : ℚ) / preds.length else 0) ∧
      r.recall_value = (if 0 < gts.length then (tp : ℚ) / gts.length else 0) ∧
      r.f1_score = (if 0 < r.precision + r.recall_value
        then 2 * r.precision * r.recall_value / (r.precision + r.recall_value) else 0) ∧
      r.false_positives = (preds.length : ℤ) - tp ∧
      r.false_negatives = (gts.length : ℤ) - tp ∧
      r.labelled_boxes = gts.length ∧ r.predicted_boxes = preds.length := by
  rw [calculate_metrics_for_predictions, h] at hr
  simp only [Option.some.injEq] at hr
  subst hr
  refine ⟨rfl, ?_, ?_, ?_, rfl, rfl, rfl, rfl⟩
  · simp only [calculate_precision]
    rcases Nat.eq_zero_or_pos preds.length with hz | hp
    · rw [hz]
      norm_num
    · rw [if_pos (by omega), if_pos hp]
  · simp only [calculate_recall]
    rcases Nat.eq_zero_or_pos gts.length with hz | hp
    · rw [hz]
      norm_num
    · rw [if_pos (by omega), if_pos hp]
  · simp only [calculate_f1]
    split_ifs with h1
    · ring
    · rfl

/-- Witness for C6 on the spec's end-to-end scenario: `true_positives = 1`,
`precision = recall = f1 = 1/2`, one false positive and one false negative. -/
theorem calculate_metrics_formulas_witness :
    endToEndRecord.true_positives = 1 ∧ endToEndRecord.precision = 1/2 ∧
      endToEndRecord.recall_value = 1/2 ∧ endToEndRecord.f1_score = 1/2 ∧
      endToEndRecord.false_positives = 1 ∧ endToEndRecord.false_negatives = 1 ∧
      endToEndRecord.labelled_boxes = 2 ∧ endToEndRecord.predicted_boxes = 2 := by
  have h := calculate_metrics_formulas [⟨0, 0, 1, 1, none⟩, ⟨5, 5, 1, 1, none⟩]
    [⟨0, 0, 1, 1, none⟩, ⟨10, 10, 1, 1, none⟩] (1/2) 1 {some 0} endToEndRecord
    (by norm_num [find_true_positives, ftpLoop, bestScan, calculate_iou_eq,
      xLeft, xRight, yTop, yBottom, interArea, unionArea])
    (by norm_num [calculate_metrics_for_predictions, find_true_positives, ftpLoop, bestScan,
      calculate_iou_eq, xLeft, xRight, yTop, yBottom, interArea, unionArea,
      calculate_precision, calculate_recall, calculate_f1, endToEndRecord])
  norm_num [endToEndRecord] at h ⊢
